import Mathlib

/-!
Verification development for the jiratui repository: a shallow embedding of
the multi-view Jira synchronization engine (query scoping, per-view issue
cache, new-issue tracking, config validation, the settings editor's working
draft, and the config wizard's view removal), together with theorems
settling the specification's claims about it.
-/

namespace JiraTui

/-! ## QueryScoper (src/jira-client.ts)

`splitOrderBy` uses the JavaScript regex `/\border\s+by\b/i` and
`String.prototype.trim`.  We embed the exact character classes involved:
`\s` (ECMAScript WhiteSpace plus LineTerminator, which is the same set
`trim` removes) and `\w` (for the `\b` word-boundary assertion). -/

/-- ECMAScript whitespace: the character set matched by `\s` and removed by
`String.prototype.trim` (WhiteSpace ∪ LineTerminator). -/
def isJsWhitespace (c : Char) : Bool :=
  c.val = 9 || c.val = 10 || c.val = 11 || c.val = 12 || c.val = 13 ||
  c.val = 32 || c.val = 0xa0 || c.val = 0x1680 ||
  (0x2000 ≤ c.val && c.val ≤ 0x200a) ||
  c.val = 0x2028 || c.val = 0x2029 || c.val = 0x202f || c.val = 0x205f ||
  c.val = 0x3000 || c.val = 0xfeff

/-- ECMAScript word character (`\w`), used by the `\b` assertion. -/
def isWordChar (c : Char) : Bool :=
  ('a' ≤ c && c ≤ 'z') || ('A' ≤ c && c ≤ 'Z') || ('0' ≤ c && c ≤ '9') || c = '_'

/-- JavaScript `String.prototype.trim` on the character list. -/
def jsTrim (l : List Char) : List Char :=
  ((l.dropWhile isJsWhitespace).reverse.dropWhile isJsWhitespace).reverse

/-- Case-insensitive literal match (the `/i` flag restricted to ASCII
letters, the only letters in the pattern): returns the remainder after the
pattern when it matches at the head. -/
def matchCI : List Char → List Char → Option (List Char)
  | [], l => some l
  | _ :: _, [] => none
  | p :: ps, c :: cs => if c.toLower = p then matchCI ps cs else none

/-- Does `/\border\s+by\b/i` match at the head of `l`?  The leading `\b` is
checked by the caller; greedy `\s+` is deterministic here because `b` is not
whitespace, so only the maximal whitespace run can be followed by `by`. -/
def orderByMatchAt (l : List Char) : Bool :=
  match matchCI ['o', 'r', 'd', 'e', 'r'] l with
  | none => false
  | some rest =>
    match rest with
    | [] => false
    | w :: _ =>
      isJsWhitespace w &&
      (match matchCI ['b', 'y'] (rest.dropWhile isJsWhitespace) with
       | none => false
       | some rest2 =>
         match rest2 with
         | [] => true
         | d :: _ => !isWordChar d)

/-- Index of the leftmost match of `/\border\s+by\b/i`, scanning with the
word-character status of the previous character (for the leading `\b`). -/
def findOrderByAux : List Char → Bool → Nat → Option Nat
  | [], _, _ => none
  | c :: rest, prevIsWord, idx =>
    if !prevIsWord && orderByMatchAt (c :: rest) then some idx
    else findOrderByAux rest (isWordChar c) (idx + 1)

/-- `splitOrderBy` from src/jira-client.ts, at the character-list level:
split at the first `/\border\s+by\b/i` match into trimmed conditions and
ordering clauses. -/
def splitOrderByL (l : List Char) : List Char × List Char :=
  match findOrderByAux l false 0 with
  | none => (jsTrim l, [])
  | some i => (jsTrim (l.take i), jsTrim (l.drop i))

/-- `splitOrderBy` from src/jira-client.ts. -/
def splitOrderBy (jql : String) : String × String :=
  let p := splitOrderByL jql.data
  (⟨p.1⟩, ⟨p.2⟩)

/-- `injectProjectConstraintAtEnd` from src/jira-client.ts: the
`ScopeToProject` transformation. -/
def injectProjectConstraintAtEnd (customJql project : String) : String :=
  let p := splitOrderBy customJql
  let withProject :=
    if p.1 = "" then "project = " ++ project
    else "(" ++ p.1 ++ ") AND project = " ++ project
  if p.2 = "" then withProject else withProject ++ " " ++ p.2

example :
    injectProjectConstraintAtEnd "status = Open ORDER BY created DESC" "PROJ" =
      "(status = Open) AND project = PROJ ORDER BY created DESC" := by decide

example : injectProjectConstraintAtEnd "" "PROJ" = "project = PROJ" := by decide

example : injectProjectConstraintAtEnd "status = Open" "PROJ" =
    "(status = Open) AND project = PROJ" := by decide

/-! ## Data model (src/index.tsx, src/jira-client.ts)

Issues are plain records; only the `id` and `key` fields participate in the
engine logic the claims are about. -/

structure JiraIssue where
  id : String
  key : String
  deriving Repr, DecidableEq

structure View where
  name : String
  jql : String
  deriving Repr, DecidableEq

structure ActivityConfig where
  enabled : Bool
  pollingIntervalMinutes : Int
  jql : String
  deriving Repr, DecidableEq

structure Config where
  project : String
  domain : String
  views : List View
  activity : Option ActivityConfig
  deriving Repr, DecidableEq

structure ConfigValidationResult where
  errors : List String
  deriving Repr, DecidableEq

/-- `JqlValidationResult` as produced by `JiraClient.validateJql`
(src/jira-client.ts): `valid` is derived there as `errors.length === 0`. -/
structure JqlValidationResult where
  valid : Bool
  errors : List String
  warnings : List String
  deriving Repr, DecidableEq

/-- The per-result classification in `JiraClient.validateJql`:
`valid: !result.errors || result.errors.length === 0`. -/
def mkValidationResult (errors warnings : List String) : JqlValidationResult :=
  { valid := errors.isEmpty, errors := errors, warnings := warnings }

structure IssueCacheEntry where
  issues : List JiraIssue
  fetchedAt : Int
  deriving Repr, DecidableEq

/-- `ISSUE_CACHE_TTL_MS` (src/index.tsx). -/
def ISSUE_CACHE_TTL_MS : Int := 30000

/-! ## JavaScript `Set` semantics

`knownIssueIds` and `newIssueIds` are JS `Set`s: insertion-ordered,
membership-deduplicated.  We model them as duplicate-free-by-construction
lists. -/

/-- `Set.prototype.add`: append if absent. -/
def addToSet (s : List String) (x : String) : List String :=
  if s.contains x then s else s ++ [x]

/-- `new Set([...a, ...b])`. -/
def setUnion (a b : List String) : List String :=
  b.foldl addToSet a

/-! ## NewIssueTracker (`trackNewIssues`, src/index.tsx)

The source mutates the `knownIssueIds` ref and accumulates `newIds`; the
embedding returns the accumulated `newIds` and the updated seen-id set. -/

/-- One loop iteration of `trackNewIssues`: push the id when the fetch is
not the initial load and the id is unseen, then add it to the seen set. -/
def trackStep (isInitial : Bool) (acc : List String × List String)
    (issue : JiraIssue) : List String × List String :=
  let newIds := if !isInitial && !acc.2.contains issue.id
                then acc.1 ++ [issue.id] else acc.1
  (newIds, addToSet acc.2 issue.id)

/-- `trackNewIssues` (src/index.tsx): returns `(newIds, knownIssueIds')`. -/
def trackNewIssues (known : List String) (issues : List JiraIssue)
    (isInitial : Bool) : List String × List String :=
  issues.foldl (trackStep isInitial) ([], known)

/-! ## Config validation (`validateConfig`, src/index.tsx) -/

/-- JavaScript `trim` on strings. -/
def jsTrimStr (s : String) : String := ⟨jsTrim s.data⟩

/-- The label used in per-view validation errors: `View "NAME"` when the
trimmed name is non-empty, else `View #N`. -/
def viewLabel (index : Nat) (view : View) : String :=
  if jsTrimStr view.name ≠ "" then "View \"" ++ jsTrimStr view.name ++ "\""
  else "View #" ++ toString (index + 1)

/-- The errors pushed for one view by `validateConfig`. -/
def viewErrors (index : Nat) (view : View) : List String :=
  (if jsTrimStr view.name = "" then [viewLabel index view ++ " is missing a name."] else []) ++
  (if jsTrimStr view.jql = "" then [viewLabel index view ++ " is missing a JQL query."] else [])

/-- The errors pushed by the activity section of `validateConfig`
(`if (config.activity?.enabled) { ... }`); `!interval || interval <= 0` on a
number is `interval ≤ 0` on the integer model. -/
def activityValidationErrors : Option ActivityConfig → List String
  | none => []
  | some a =>
    if a.enabled then
      (if a.pollingIntervalMinutes ≤ 0
       then ["Activity polling interval must be a positive number."] else []) ++
      (if jsTrimStr a.jql = ""
       then ["Activity JQL query is required when activity is enabled."] else [])
    else []

/-- `validateConfig` (src/index.tsx): errors are pushed in order — project,
domain, views (or the zero-view error), then the activity section. -/
def validateConfig (config : Config) : ConfigValidationResult :=
  { errors :=
      (if jsTrimStr config.project = "" then ["Missing project key in config.json."] else []) ++
      (if jsTrimStr config.domain = "" then ["Missing domain in config.json."] else []) ++
      (if config.views.length = 0 then ["At least one view is required in config.json."]
       else (config.views.enum.map fun p => viewErrors p.1 p.2).flatten) ++
      activityValidationErrors config.activity }

/-! ## App state and the fetch/cache engine (src/index.tsx)

The relevant React state of the `App` component.  The issue cache
(`IssueCache = Record<number, IssueCacheEntry>`) is modelled as a function
from tab index to optional entry. -/

structure AppState where
  config : Config
  issueCache : Nat → Option IssueCacheEntry
  newIssueIds : List String
  knownIssueIds : List String
  loading : Bool
  showSettings : Bool
  validationDone : Bool
  error : Option String
  validationErrors : List String
  log : List String

/-- `config.activity?.enabled ?? false`. -/
def activityEnabled (c : Config) : Bool :=
  match c.activity with
  | some a => a.enabled
  | none => false

/-- `tabs.length`: standard views plus the synthetic Activity tab. -/
def tabsLength (c : Config) : Nat :=
  c.views.length + (if activityEnabled c then 1 else 0)

/-- `activityTabIndex`: `tabs.length - 1` when activity is enabled, `-1`
otherwise. -/
def activityTabIndex (c : Config) : Int :=
  if activityEnabled c then (tabsLength c : Int) - 1 else -1

/-- Accumulator of the `fetchAllTabs` loop: the `newCache` updates in
insertion order, the indices remotely fetched, the seen-id set and
highlighted-id set as updated by the per-iteration `trackNewIssues` calls,
and the first thrown fetch error, if any. -/
structure FetchLoopAcc where
  updates : List (Nat × IssueCacheEntry)
  calls : List Nat
  known : List String
  highlighted : List String
  didFetch : Bool
  failed : Option String

/-- The remote-call arm of one `fetchAllTabs` iteration:
`await fetchIssuesForTab(i)` either throws (recording the error, which
aborts the rest of the loop) or yields issues that replace the entry and are
folded into the tracker. -/
def fetchTabsCall (fetch : Nat → Except String (List JiraIssue)) (now : Int)
    (isInitial : Bool) (acc : FetchLoopAcc) (i : Nat) : FetchLoopAcc :=
  match fetch i with
  | .error msg => { acc with calls := acc.calls ++ [i], failed := some msg }
  | .ok issues =>
    let tracked := trackNewIssues acc.known issues isInitial
    { updates := acc.updates ++ [(i, ⟨issues, now⟩)]
      calls := acc.calls ++ [i]
      known := tracked.2
      highlighted := if tracked.1 ≠ [] then setUnion acc.highlighted tracked.1
                     else acc.highlighted
      didFetch := true
      failed := none }

/-- One iteration of the `fetchAllTabs` `for` loop: a thrown error on an
earlier index aborts the rest (modelled by the short-circuit on `failed`);
the activity index is skipped; a fresh entry
(`!force && !isInitial && entry && now - entry.fetchedAt < TTL`) is reused
without a remote call; otherwise the tab is fetched.  `trackNewIssues`'s
ref/state updates happen per iteration, so they survive a later throw;
`setIssueCache` runs only after the loop. -/
def fetchTabsStep (fetch : Nat → Except String (List JiraIssue))
    (cache : Nat → Option IssueCacheEntry) (activityIdx : Int) (now : Int)
    (isInitial force : Bool) (acc : FetchLoopAcc) (i : Nat) : FetchLoopAcc :=
  match acc.failed with
  | some _ => acc
  | none =>
    if (i : Int) = activityIdx then acc
    else
      match cache i with
      | some e =>
        if !force && !isInitial && now - e.fetchedAt < ISSUE_CACHE_TTL_MS then
          { acc with updates := acc.updates ++ [(i, e)] }
        else fetchTabsCall fetch now isInitial acc i
      | none => fetchTabsCall fetch now isInitial acc i

/-- The whole `fetchAllTabs` loop over the tab indices. -/
def fetchTabsLoop (fetch : Nat → Except String (List JiraIssue))
    (cache : Nat → Option IssueCacheEntry) (activityIdx : Int) (now : Int)
    (isInitial force : Bool) (idxs : List Nat) (acc : FetchLoopAcc) :
    FetchLoopAcc :=
  idxs.foldl (fetchTabsStep fetch cache activityIdx now isInitial force) acc

/-- Merge of `setIssueCache(prev => ({ ...prev, ...newCache }))`. -/
def mergeCache (cache : Nat → Option IssueCacheEntry)
    (updates : List (Nat × IssueCacheEntry)) : Nat → Option IssueCacheEntry :=
  fun j =>
    match updates.lookup j with
    | some e => some e
    | none => cache j

structure GlobalRefreshOutcome where
  state : AppState
  calls : List Nat
  failed : Option String

/-- `fetchAllTabs(isInitial, force)` (src/index.tsx): on success the cache
updates are merged in and `loading` clears; on a thrown fetch error the
cache is left untouched and the `error` state is set.  `error` is never
cleared on success. -/
def fetchAllTabs (s : AppState) (fetch : Nat → Except String (List JiraIssue))
    (now : Int) (isInitial force : Bool) : GlobalRefreshOutcome :=
  let r := fetchTabsLoop fetch s.issueCache (activityTabIndex s.config) now
      isInitial force (List.range (tabsLength s.config))
      { updates := [], calls := [], known := s.knownIssueIds,
        highlighted := s.newIssueIds, didFetch := false, failed := none }
  match r.failed with
  | some msg =>
    { state := { s with
        error := some msg
        loading := false
        knownIssueIds := r.known
        newIssueIds := r.highlighted },
      calls := r.calls, failed := some msg }
  | none =>
    { state := { s with
        issueCache := mergeCache s.issueCache r.updates
        loading := false
        knownIssueIds := r.known
        newIssueIds := r.highlighted },
      calls := r.calls, failed := none }

/-- `fetchActivityIssues` (src/index.tsx): a failure is caught and logged
via `console.error`, leaving all other state untouched; a success replaces
the activity slot and folds the issues into the tracker. -/
def fetchActivityIssues (s : AppState) (result : Except String (List JiraIssue))
    (activityIdx : Nat) (now : Int) (isInitial : Bool) : AppState :=
  match result with
  | .error msg => { s with log := s.log ++ ["Activity refresh failed: " ++ msg] }
  | .ok issues =>
    let tracked := trackNewIssues s.knownIssueIds issues isInitial
    { s with
      knownIssueIds := tracked.2,
      newIssueIds := if tracked.1 ≠ [] then setUnion s.newIssueIds tracked.1
                     else s.newIssueIds,
      issueCache := fun j => if j = activityIdx then some ⟨issues, now⟩
                             else s.issueCache j }

/-- The top-level screen selected by `App`'s render: loading box, validation
error screen, blocking error screen, or the main tabbed view. -/
inductive RenderKind where
  | loadingScreen
  | validationScreen
  | errorScreen
  | main
  deriving Repr, DecidableEq

/-- The render dispatch order in `App` (src/index.tsx): `loading`, then
`validationErrors.length > 0`, then `error`, then the main view. -/
def renderKind (s : AppState) : RenderKind :=
  if s.loading then .loadingScreen
  else if s.validationErrors ≠ [] then .validationScreen
  else
    match s.error with
    | some _ => .errorScreen
    | none => .main

/-- `handleSettingsSave` (src/index.tsx): adopt the draft, close the modal,
reset the cache and the highlighted set; `knownIssueIds` is not touched. -/
def handleSettingsSave (s : AppState) (newConfig : Config) : AppState :=
  { s with
    config := newConfig
    showSettings := false
    loading := true
    validationDone := false
    issueCache := fun _ => none
    newIssueIds := [] }

/-- The `c` key handler (src/index.tsx): clear the highlighted-new-id set. -/
def clearHighlights (s : AppState) : AppState :=
  { s with newIssueIds := [] }

/-! ## SettingsModal (src/index.tsx)

The modal's editing state: the working draft (`editingConfig`, a deep copy
of the live config) plus the field-edit sub-state. -/

inductive SettingsMode where
  | menu
  | views
  | editView
  | activity
  | project
  deriving Repr, DecidableEq

inductive EditField where
  | name
  | jql
  | project
  | interval
  | activityJql
  deriving Repr, DecidableEq

structure SettingsState where
  editingConfig : Config
  mode : SettingsMode
  viewIndex : Nat
  fieldIndex : Nat
  editField : Option EditField
  editValue : String
  cursorPos : Nat
  isNewView : Bool
  validationError : Option String
  validating : Bool
  deriving Repr, DecidableEq

/-- `clearEditState` (src/index.tsx). -/
def clearEditState (st : SettingsState) : SettingsState :=
  { st with editField := none, editValue := "", cursorPos := 0,
            validationError := none }

/-- `startEditing` (src/index.tsx). -/
def startEditing (st : SettingsState) (field : EditField) (value : String) :
    SettingsState :=
  { st with editField := some field, editValue := value,
            cursorPos := value.length }

/-- `newViews[viewIndex]` mutation: update the element when the index is in
bounds, else leave the list unchanged (`const view = ...; if (view) ...`). -/
def updateViewAt (views : List View) (i : Nat) (f : View → View) : List View :=
  match views.get? i with
  | some v => views.set i (f v)
  | none => views

/-- JavaScript `parseInt(s, 10)`: skip leading whitespace, optional sign,
then the maximal run of decimal digits; `none` models `NaN`. -/
def parseIntJS (s : String) : Option Int :=
  let l := s.data.dropWhile isJsWhitespace
  let signed : Int × List Char :=
    match l with
    | '-' :: rest => (-1, rest)
    | '+' :: rest => (1, rest)
    | _ => (1, l)
  let digits := signed.2.takeWhile fun c => '0' ≤ c && c ≤ '9'
  if digits.isEmpty then none
  else some (signed.1 * (digits.foldl (fun n c => n * 10 + ((c.toNat : Int) - 48)) 0))

/-- `applyEdit` (src/index.tsx): commit the edited value of the active field
into the working draft.  The non-null assertions on `editingConfig.activity`
in the interval/activity-JQL branches are modelled as no-ops when the
activity section is absent (those branches are only reachable with activity
present). -/
def applyEdit (st : SettingsState) : SettingsState :=
  match st.editField with
  | some .project =>
    clearEditState { st with
      editingConfig := { st.editingConfig with project := st.editValue }
      mode := .menu }
  | some .name =>
    if st.mode = .editView then
      if st.isNewView then
        let newViews := st.editingConfig.views ++ [⟨st.editValue, ""⟩]
        -- `startEditing("jql", "")` and `setIsNewView(false)` with an early
        -- return: the edit state is not cleared.
        { st with
          editingConfig := { st.editingConfig with views := newViews }
          viewIndex := newViews.length - 1
          editField := some .jql
          editValue := ""
          cursorPos := 0
          isNewView := false }
      else
        clearEditState { st with
          editingConfig := { st.editingConfig with
            views := updateViewAt st.editingConfig.views st.viewIndex
              fun v => { v with name := st.editValue } } }
    else clearEditState st
  | some .jql =>
    if st.mode = .editView then
      clearEditState { st with
        editingConfig := { st.editingConfig with
          views := updateViewAt st.editingConfig.views st.viewIndex
            fun v => { v with jql := st.editValue } } }
    else clearEditState st
  | some .interval =>
    match parseIntJS st.editValue with
    | some n =>
      if 0 < n then
        clearEditState { st with
          editingConfig := { st.editingConfig with
            activity := match st.editingConfig.activity with
              | some a => some { a with pollingIntervalMinutes := n }
              | none => st.editingConfig.activity } }
      else clearEditState st
    | none => clearEditState st
  | some .activityJql =>
    clearEditState { st with
      editingConfig := { st.editingConfig with
        activity := match st.editingConfig.activity with
          | some a => some { a with jql := st.editValue }
          | none => st.editingConfig.activity } }
  | none => clearEditState st

/-- The error classification of the modal's `validateJql`
(src/index.tsx): `if (!result?.valid) return result?.errors[0] ?? "Invalid
JQL"; return null`. -/
def classifyValidation (r : JqlValidationResult) : Option String :=
  if !r.valid then some (r.errors.head?.getD "Invalid JQL") else none

/-- The `return`-key flow for a query field (`jql` or `activityJql`) once
the remote validation resolves: `setValidating(false)`, then either surface
the error (blocking the commit) or `applyEdit()`. -/
def confirmQueryEdit (st : SettingsState) (r : JqlValidationResult) :
    SettingsState :=
  match classifyValidation r with
  | some e => { st with validating := false, validationError := some e }
  | none => applyEdit { st with validating := false }

/-- The `d` key handler in `views` mode (src/index.tsx): splice out the view
at `viewIndex` whenever `viewIndex < editingConfig.views.length`, and clamp
`viewIndex`.  There is no minimum-view-count guard. -/
def settingsDeleteView (views : List View) (viewIndex : Nat) :
    List View × Nat :=
  if viewIndex < views.length then
    let newViews := views.eraseIdx viewIndex
    (newViews, min viewIndex newViews.length)
  else (views, viewIndex)

/-! ## Config wizard `removeView` (src/config-wizard.ts)

`choice` is the `askMenu` result over `views.map(name) ++ ["Cancel"]`:
`-1` for an unrecognized answer, otherwise `0..views.length`. -/

def removeView (views : List View) (choice : Int) (confirm : Bool) :
    List View :=
  if views.length = 0 then views
  else if views.length = 1 then views
  else if choice = -1 || choice = (views.length : Int) then views
  else
    match views.get? choice.toNat with
    | none => views
    | some _ => if confirm then views.eraseIdx choice.toNat else views

/-! ## Tracker/highlight transition system

The per-cycle interactions of `trackNewIssues`, the highlighted-set update
`setNewIssueIds(prev => new Set([...prev, ...newIds]))`, and the `c` key's
`setNewIssueIds(new Set())`, abstracted over the fetch that supplied the
issues.  The state is `(knownIssueIds, newIssueIds)`. -/

inductive TrackerAction where
  | fold (issues : List JiraIssue) (isInitial : Bool)
  | clear

/-- One tracker transition: fold a fetched issue list (updating the seen-id
set and unioning the reported ids into the highlighted set), or clear the
highlighted set. -/
def trackerStep (st : List String × List String) :
    TrackerAction → List String × List String
  | .fold issues isInitial =>
    let tracked := trackNewIssues st.1 issues isInitial
    (tracked.2, if tracked.1 ≠ [] then setUnion st.2 tracked.1 else st.2)
  | .clear => (st.1, [])

/-- Run a sequence of tracker transitions. -/
def runTracker (st : List String × List String) (actions : List TrackerAction) :
    List String × List String :=
  actions.foldl trackerStep st

/-! ## Helper lemmas -/

theorem string_data_append (a b : String) : (a ++ b).data = a.data ++ b.data :=
  rfl

theorem string_append_empty (s : String) : s ++ "" = s := by
  apply String.ext
  rw [string_data_append]
  simp

theorem string_append_assoc (a b c : String) : a ++ b ++ c = a ++ (b ++ c) := by
  apply String.ext
  simp [string_data_append]

theorem string_eq_empty_iff (s : String) : s = "" ↔ s.data = [] := by
  constructor
  · intro h
    rw [h]
  · intro h
    apply String.ext
    rw [h]

/-- C1 helper: `injectProjectConstraintAtEnd` in terms of `splitOrderBy`. -/
theorem inject_eq_scoped (q p : String) :
    injectProjectConstraintAtEnd q p =
      (if (splitOrderBy q).1 = "" then "project = " ++ p
       else "(" ++ (splitOrderBy q).1 ++ ") AND project = " ++ p) ++
      (if (splitOrderBy q).2 = "" then "" else " " ++ (splitOrderBy q).2) := by
  unfold injectProjectConstraintAtEnd
  by_cases h : (splitOrderBy q).2 = "" <;>
    simp only [h, if_true, if_false, ite_true, ite_false, string_append_empty,
      string_append_assoc]

/-! ## Claims -/

/-- C1: `ScopeToProject` splits the query at the first case-insensitive
`ORDER BY` keyword into a conditions clause and an ordering clause; an empty
conditions clause yields `project = {p}`, otherwise `({conditions}) AND
project = {p}`; a present ordering clause is re-appended after the scoped
conditions separated by a single space.  In particular the two quoted
example evaluations hold. -/
theorem scopeToProject_spec :
    (∀ q p : String,
      injectProjectConstraintAtEnd q p =
        (if (splitOrderBy q).1 = "" then "project = " ++ p
         else "(" ++ (splitOrderBy q).1 ++ ") AND project = " ++ p) ++
        (if (splitOrderBy q).2 = "" then "" else " " ++ (splitOrderBy q).2)) ∧
    injectProjectConstraintAtEnd "status = Open ORDER BY created DESC" "PROJ" =
      "(status = Open) AND project = PROJ ORDER BY created DESC" ∧
    injectProjectConstraintAtEnd "" "PROJ" = "project = PROJ" :=
  ⟨inject_eq_scoped, by decide, by decide⟩

/-- C9: when the activity section is present but disabled, config validation
reports exactly the errors of the activity-free config — no activity-related
errors, whatever the polling interval or JQL; and with activity enabled, a
non-positive interval and an empty JQL do produce the two activity errors. -/
theorem validateConfig_activity_disabled :
    (∀ (project domain : String) (views : List View) (interval : Int)
       (jql : String),
      validateConfig ⟨project, domain, views, some ⟨false, interval, jql⟩⟩ =
        validateConfig ⟨project, domain, views, none⟩ ∧
      activityValidationErrors (some ⟨false, interval, jql⟩) = []) ∧
    activityValidationErrors (some ⟨true, 0, ""⟩) =
      ["Activity polling interval must be a positive number.",
       "Activity JQL query is required when activity is enabled."] := by
  refine ⟨fun project domain views interval jql => ⟨?_, rfl⟩, by decide⟩
  simp [validateConfig, activityValidationErrors]

theorem mem_addToSet (s : List String) (y x : String) :
    x ∈ addToSet s y ↔ x ∈ s ∨ x = y := by
  by_cases h : s.contains y <;> simp_all [addToSet]

theorem mem_setUnion (a b : List String) (x : String) :
    x ∈ setUnion a b ↔ x ∈ a ∨ x ∈ b := by
  induction b generalizing a with
  | nil => simp [setUnion]
  | cons y ys ih =>
    show x ∈ setUnion (addToSet a y) ys ↔ _
    rw [ih, mem_addToSet]
    simp
    tauto

theorem track_foldl_known (isInitial : Bool) (issues : List JiraIssue)
    (acc : List String × List String) (x : String) :
    x ∈ (issues.foldl (trackStep isInitial) acc).2 ↔
      x ∈ acc.2 ∨ ∃ iss ∈ issues, iss.id = x := by
  induction issues generalizing acc with
  | nil => simp
  | cons i is ih =>
    rw [List.foldl_cons, ih]
    show x ∈ addToSet acc.2 i.id ∨ _ ↔ _
    rw [mem_addToSet]
    simp only [List.mem_cons]
    constructor
    · rintro ((hx | rfl) | ⟨iss, hiss, rfl⟩)
      · exact Or.inl hx
      · exact Or.inr ⟨i, Or.inl rfl, rfl⟩
      · exact Or.inr ⟨iss, Or.inr hiss, rfl⟩
    · rintro (hx | ⟨iss, (rfl | hiss), rfl⟩)
      · exact Or.inl (Or.inl hx)
      · exact Or.inl (Or.inr rfl)
      · exact Or.inr ⟨iss, hiss, rfl⟩

theorem track_foldl_initial_newIds (issues : List JiraIssue)
    (acc : List String × List String) :
    (issues.foldl (trackStep true) acc).1 = acc.1 := by
  induction issues generalizing acc with
  | nil => rfl
  | cons i is ih =>
    rw [List.foldl_cons, ih]
    simp [trackStep]

theorem track_foldl_newIds (issues : List JiraIssue)
    (acc : List String × List String) (x : String) :
    x ∈ (issues.foldl (trackStep false) acc).1 ↔
      x ∈ acc.1 ∨ ((∃ iss ∈ issues, iss.id = x) ∧ x ∉ acc.2) := by
  induction issues generalizing acc with
  | nil => simp
  | cons i is ih =>
    have h2 : (trackStep false acc i).2 = addToSet acc.2 i.id := rfl
    by_cases hc : acc.2.contains i.id
    · have hmem : i.id ∈ acc.2 := List.elem_iff.mp hc
      have h1 : (trackStep false acc i).1 = acc.1 := by
        simp [trackStep, hmem]
      rw [List.foldl_cons, ih, h1, h2]
      simp only [mem_addToSet, List.mem_cons]
      constructor
      · rintro (hx | ⟨⟨iss, hiss, rfl⟩, hn⟩)
        · exact Or.inl hx
        · exact Or.inr ⟨⟨iss, Or.inr hiss, rfl⟩, fun h => hn (Or.inl h)⟩
      · rintro (hx | ⟨⟨iss, h', rfl⟩, hn⟩)
        · exact Or.inl hx
        · rcases h' with rfl | hiss
          · exact absurd hmem hn
          · refine Or.inr ⟨⟨iss, hiss, rfl⟩, ?_⟩
            rintro (h | h)
            · exact hn h
            · exact hn (h ▸ hmem)
    · have hmem : i.id ∉ acc.2 := fun h => hc (List.elem_iff.mpr h)
      have h1 : (trackStep false acc i).1 = acc.1 ++ [i.id] := by
        simp [trackStep, hmem]
      rw [List.foldl_cons, ih, h1, h2]
      simp only [mem_addToSet, List.mem_cons, List.mem_append,
        List.not_mem_nil, or_false]
      constructor
      · rintro ((hx | rfl) | ⟨⟨iss, hiss, rfl⟩, hn⟩)
        · exact Or.inl hx
        · exact Or.inr ⟨⟨i, Or.inl rfl, rfl⟩, hmem⟩
        · exact Or.inr ⟨⟨iss, Or.inr hiss, rfl⟩, fun h => hn (Or.inl h)⟩
      · rintro (hx | ⟨⟨iss, h', rfl⟩, hn⟩)
        · exact Or.inl (Or.inl hx)
        · by_cases hx : iss.id = i.id
          · exact Or.inl (Or.inr hx)
          · rcases h' with rfl | hiss
            · exact absurd rfl hx
            · exact Or.inr ⟨⟨iss, hiss, rfl⟩, fun h => h.elim hn hx⟩

/-- An already-seen id is never in the reported `newIds` of a fold. -/
theorem trackNewIssues_not_reported (known : List String)
    (issues : List JiraIssue) (isInitial : Bool) (x : String)
    (hx : x ∈ known) : x ∉ (trackNewIssues known issues isInitial).1 := by
  cases isInitial with
  | true =>
    unfold trackNewIssues
    rw [track_foldl_initial_newIds]
    simp
  | false =>
    unfold trackNewIssues
    rw [track_foldl_newIds]
    simp
    intro _ _ _
    exact hx

/-- The seen-id set only grows under a fold. -/
theorem trackNewIssues_known_mono (known : List String)
    (issues : List JiraIssue) (isInitial : Bool) (x : String)
    (hx : x ∈ known) : x ∈ (trackNewIssues known issues isInitial).2 := by
  unfold trackNewIssues
  rw [track_foldl_known]
  exact Or.inl hx

/-- C3: folding an issue list with `isInitialLoad = true` adds every id to
the seen-id set and reports none as new; with `isInitialLoad = false`
exactly the ids absent from the seen-id set before the fold are reported,
and all ids end up in the set.  The `[A,B]` / `[A,B,C]` example sequence
reports exactly `C` and then nothing. -/
theorem trackNewIssues_spec :
    (∀ (known : List String) (issues : List JiraIssue),
      (trackNewIssues known issues true).1 = [] ∧
      ∀ x, x ∈ (trackNewIssues known issues true).2 ↔
        x ∈ known ∨ ∃ iss ∈ issues, iss.id = x) ∧
    (∀ (known : List String) (issues : List JiraIssue) (x : String),
      (x ∈ (trackNewIssues known issues false).1 ↔
        (∃ iss ∈ issues, iss.id = x) ∧ x ∉ known) ∧
      (x ∈ (trackNewIssues known issues false).2 ↔
        x ∈ known ∨ ∃ iss ∈ issues, iss.id = x)) ∧
    ((trackNewIssues [] [⟨"A", "A"⟩, ⟨"B", "B"⟩] true).1 = [] ∧
     (trackNewIssues (trackNewIssues [] [⟨"A", "A"⟩, ⟨"B", "B"⟩] true).2
        [⟨"A", "A"⟩, ⟨"B", "B"⟩, ⟨"C", "C"⟩] false).1 = ["C"] ∧
     (trackNewIssues
        (trackNewIssues (trackNewIssues [] [⟨"A", "A"⟩, ⟨"B", "B"⟩] true).2
          [⟨"A", "A"⟩, ⟨"B", "B"⟩, ⟨"C", "C"⟩] false).2
        [⟨"A", "A"⟩, ⟨"B", "B"⟩, ⟨"C", "C"⟩] false).1 = []) := by
  refine ⟨fun known issues => ⟨?_, fun x => ?_⟩,
    fun known issues x => ⟨?_, ?_⟩, by decide⟩
  · exact track_foldl_initial_newIds issues ([], known)
  · exact track_foldl_known true issues ([], known) x
  · rw [trackNewIssues, track_foldl_newIds]
    simp
  · exact track_foldl_known false issues ([], known) x

/-- C10: an id already in the seen-id set stays there across any sequence of
folds and highlight-clears, is never re-highlighted once absent from the
highlighted set, and is never reported as new by any later fold. -/
theorem seenId_never_rehighlighted (x : String)
    (st : List String × List String) (actions : List TrackerAction)
    (hknown : x ∈ st.1) (hclear : x ∉ st.2) :
    x ∈ (runTracker st actions).1 ∧ x ∉ (runTracker st actions).2 ∧
    ∀ (issues : List JiraIssue) (isInitial : Bool),
      x ∉ (trackNewIssues (runTracker st actions).1 issues isInitial).1 := by
  have main : ∀ (as : List TrackerAction) (st' : List String × List String),
      x ∈ st'.1 → x ∉ st'.2 →
      x ∈ (runTracker st' as).1 ∧ x ∉ (runTracker st' as).2 := by
    intro as
    induction as with
    | nil => exact fun st' h1 h2 => ⟨h1, h2⟩
    | cons a rest ih =>
      intro st' h1 h2
      show x ∈ (runTracker (trackerStep st' a) rest).1 ∧ _
      cases a with
      | clear => exact ih (st'.1, []) h1 (by simp)
      | fold issues isInitial =>
        apply ih
        · exact trackNewIssues_known_mono _ _ _ _ h1
        · show x ∉ if _ ≠ [] then setUnion st'.2 _ else st'.2
          split
          · rw [mem_setUnion]
            rintro (h | h)
            · exact h2 h
            · exact trackNewIssues_not_reported _ _ _ _ h1 h
          · exact h2
  obtain ⟨h1, h2⟩ := main actions st hknown hclear
  exact ⟨h1, h2, fun issues isInitial =>
    trackNewIssues_not_reported _ _ _ _ h1⟩

/-- Witness for C10 at a concrete run: `"A"` is already seen, the
highlighted set is empty, and a later non-initial fold of `[A, B]` neither
reports nor highlights `"A"` again. -/
theorem seenId_never_rehighlighted_witness :
    "A" ∈ (runTracker (["A"], []) [.fold [⟨"A", "A"⟩, ⟨"B", "B"⟩] false]).1 ∧
    "A" ∉ (runTracker (["A"], []) [.fold [⟨"A", "A"⟩, ⟨"B", "B"⟩] false]).2 ∧
    "A" ∉ (trackNewIssues
      (runTracker (["A"], []) [.fold [⟨"A", "A"⟩, ⟨"B", "B"⟩] false]).1
      [⟨"A", "A"⟩] false).1 := by
  have h := seenId_never_rehighlighted "A" (["A"], [])
    [.fold [⟨"A", "A"⟩, ⟨"B", "B"⟩] false] (by decide) (by decide)
  exact ⟨h.1, h.2.1, h.2.2 [⟨"A", "A"⟩] false⟩

theorem fetchTabsStep_known_mono (fetch : Nat → Except String (List JiraIssue))
    (cache : Nat → Option IssueCacheEntry) (activityIdx : Int) (now : Int)
    (isInitial force : Bool) (acc : FetchLoopAcc) (i : Nat) (x : String)
    (hx : x ∈ acc.known) :
    x ∈ (fetchTabsStep fetch cache activityIdx now isInitial force acc i).known := by
  unfold fetchTabsStep fetchTabsCall
  split
  · exact hx
  · split
    · exact hx
    · split
      · split
        · exact hx
        · split
          · exact hx
          · exact trackNewIssues_known_mono _ _ _ _ hx
      · split
        · exact hx
        · exact trackNewIssues_known_mono _ _ _ _ hx

theorem fetchTabsLoop_known_mono (fetch : Nat → Except String (List JiraIssue))
    (cache : Nat → Option IssueCacheEntry) (activityIdx : Int) (now : Int)
    (isInitial force : Bool) (idxs : List Nat) (acc : FetchLoopAcc) (x : String)
    (hx : x ∈ acc.known) :
    x ∈ (fetchTabsLoop fetch cache activityIdx now isInitial force idxs acc).known := by
  induction idxs generalizing acc with
  | nil => exact hx
  | cons i rest ih =>
    exact ih _ (fetchTabsStep_known_mono fetch cache activityIdx now isInitial
      force acc i x hx)

/-- C6: a settings commit resets every cache entry and the highlighted set
but leaves the seen-id set untouched; and no modeled operation — clearing
highlights, a global refresh, or an activity refresh — ever removes an id
from the seen-id set. -/
theorem settingsSave_frame (s : AppState) (cfg : Config) :
    (∀ j, (handleSettingsSave s cfg).issueCache j = none) ∧
    (handleSettingsSave s cfg).newIssueIds = [] ∧
    (handleSettingsSave s cfg).knownIssueIds = s.knownIssueIds ∧
    (clearHighlights s).knownIssueIds = s.knownIssueIds ∧
    (∀ (fetch : Nat → Except String (List JiraIssue)) (now : Int)
       (isInitial force : Bool) (x : String), x ∈ s.knownIssueIds →
      x ∈ (fetchAllTabs s fetch now isInitial force).state.knownIssueIds) ∧
    (∀ (result : Except String (List JiraIssue)) (idx : Nat) (now : Int)
       (isInitial : Bool) (x : String), x ∈ s.knownIssueIds →
      x ∈ (fetchActivityIssues s result idx now isInitial).knownIssueIds) := by
  refine ⟨fun j => rfl, rfl, rfl, rfl, ?_, ?_⟩
  · intro fetch now isInitial force x hx
    have h := fetchTabsLoop_known_mono fetch s.issueCache
      (activityTabIndex s.config) now isInitial force
      (List.range (tabsLength s.config))
      { updates := [], calls := [], known := s.knownIssueIds,
        highlighted := s.newIssueIds, didFetch := false, failed := none } x hx
    simp only [fetchAllTabs]
    split <;> exact h
  · intro result idx now isInitial x hx
    unfold fetchActivityIssues
    split
    · exact hx
    · exact trackNewIssues_known_mono _ _ _ _ hx

/-- Witness for C6 at a concrete state: the id `"A"` already seen survives a
settings commit, a failed and a successful refresh. -/
theorem settingsSave_frame_witness :
    (handleSettingsSave
        ⟨⟨"P", "d", [⟨"V", "j"⟩], none⟩, fun _ => none, [], ["A"], false,
          false, true, none, [], []⟩
        ⟨"Q", "d", [⟨"W", "k"⟩], none⟩).knownIssueIds = ["A"] ∧
    "A" ∈ (fetchAllTabs
        ⟨⟨"P", "d", [⟨"V", "j"⟩], none⟩, fun _ => none, [], ["A"], false,
          false, true, none, [], []⟩
        (fun _ => .ok []) 0 false false).state.knownIssueIds ∧
    "A" ∈ (fetchActivityIssues
        ⟨⟨"P", "d", [⟨"V", "j"⟩], none⟩, fun _ => none, [], ["A"], false,
          false, true, none, [], []⟩
        (.ok []) 0 0 false).knownIssueIds := by
  have h := settingsSave_frame
    ⟨⟨"P", "d", [⟨"V", "j"⟩], none⟩, fun _ => none, [], ["A"], false,
      false, true, none, [], []⟩
    ⟨"Q", "d", [⟨"W", "k"⟩], none⟩
  exact ⟨h.2.2.1, h.2.2.2.2.1 (fun _ => .ok []) 0 false false "A" (by decide),
    h.2.2.2.2.2 (.ok []) 0 0 false "A" (by decide)⟩

/-- C5: the settings modal's `d` handler deletes the view at `viewIndex`
whenever it is in bounds — including the last remaining view, leaving a
zero-view draft — whereas the config wizard's `removeView` refuses to remove
the last view, and the code's own `validateConfig` rejects a zero-view
config ("At least one view is required"). -/
theorem settingsModal_deletes_last_view :
    settingsDeleteView [⟨"My Work", "assignee = currentUser()"⟩] 0 = ([], 0) ∧
    removeView [⟨"My Work", "assignee = currentUser()"⟩] 0 true =
      [⟨"My Work", "assignee = currentUser()"⟩] ∧
    "At least one view is required in config.json." ∈
      (validateConfig ⟨"PROJ", "example.atlassian.net", [], none⟩).errors := by
  decide

/-- C7: confirming a query-field edit (view JQL or activity JQL) against a
validation result with errors blocks the commit — the draft keeps its prior
value, the editor stays in the same field-edit state, and the first reported
error is surfaced; a result without errors (warnings allowed and ignored)
commits the edited value into the draft, touching only that field. -/
theorem confirmQueryEdit_spec (cfg : Config) (a : ActivityConfig)
    (vi fi cp : Nat) (value : String) (errors warnings : List String)
    (vald : Bool) :
    (let st : SettingsState :=
       ⟨cfg, .editView, vi, fi, some .jql, value, cp, false, none, vald⟩
     let out := confirmQueryEdit st (mkValidationResult errors warnings)
     if errors = [] then
       out.editingConfig.views =
         updateViewAt cfg.views vi (fun v => { v with jql := value }) ∧
       out.editingConfig.project = cfg.project ∧
       out.editingConfig.domain = cfg.domain ∧
       out.editingConfig.activity = cfg.activity ∧
       out.editField = none ∧ out.validationError = none ∧
       out.validating = false
     else
       out.editingConfig = cfg ∧ out.editField = some .jql ∧
       out.editValue = value ∧ out.mode = .editView ∧
       out.validationError = some (errors.head?.getD "Invalid JQL") ∧
       out.validating = false) ∧
    (let cfgA : Config := { cfg with activity := some a }
     let st : SettingsState :=
       ⟨cfgA, .activity, vi, fi, some .activityJql, value, cp, false, none,
         vald⟩
     let out := confirmQueryEdit st (mkValidationResult errors warnings)
     if errors = [] then
       out.editingConfig = { cfgA with activity := some { a with jql := value } } ∧
       out.editField = none ∧ out.validationError = none
     else
       out.editingConfig = cfgA ∧ out.editField = some .activityJql ∧
       out.validationError = some (errors.head?.getD "Invalid JQL")) ∧
    (∀ st : SettingsState,
       confirmQueryEdit st (mkValidationResult errors warnings) =
         confirmQueryEdit st (mkValidationResult errors [])) := by
  refine ⟨?_, ?_, fun st => rfl⟩
  · by_cases he : errors = [] <;>
      simp [he, confirmQueryEdit, classifyValidation, mkValidationResult,
        applyEdit, clearEditState]
  · by_cases he : errors = [] <;>
      simp [he, confirmQueryEdit, classifyValidation, mkValidationResult,
        applyEdit, clearEditState]

theorem lookup_append_single {β : Type} (l : List (Nat × β)) (j : Nat) (x : β)
    (i : Nat) :
    (l ++ [(j, x)]).lookup i =
      match l.lookup i with
      | some v => some v
      | none => if i = j then some x else none := by
  induction l with
  | nil =>
    by_cases h : i = j
    · subst h
      simp [List.lookup]
    · have hb : (i == j) = false := beq_eq_false_iff_ne.mpr h
      simp [List.lookup, hb, h]
  | cons p rest ih =>
    obtain ⟨k, v⟩ := p
    by_cases h : i = k
    · subst h
      simp [List.lookup]
    · have hb : (i == k) = false := beq_eq_false_iff_ne.mpr h
      simp [List.lookup, hb, ih]

/-- A standard view index is never the activity tab index. -/
theorem view_ne_activityTabIndex (c : Config) (i : Nat)
    (h : i < c.views.length) : (i : Int) ≠ activityTabIndex c := by
  unfold activityTabIndex tabsLength
  by_cases ha : activityEnabled c = true <;> (simp [ha]; try omega)

theorem fetchTabsStep_calls (fetch : Nat → Except String (List JiraIssue))
    (cache : Nat → Option IssueCacheEntry) (activityIdx : Int) (now : Int)
    (isInitial force : Bool) (acc : FetchLoopAcc) (j : Nat) :
    (fetchTabsStep fetch cache activityIdx now isInitial force acc j).calls =
      acc.calls ∨
    (fetchTabsStep fetch cache activityIdx now isInitial force acc j).calls =
      acc.calls ++ [j] := by
  unfold fetchTabsStep fetchTabsCall
  split
  · exact Or.inl rfl
  · split
    · exact Or.inl rfl
    · split
      · split
        · exact Or.inl rfl
        · split
          · exact Or.inr rfl
          · exact Or.inr rfl
      · split
        · exact Or.inr rfl
        · exact Or.inr rfl

theorem fetchTabsStep_updates (fetch : Nat → Except String (List JiraIssue))
    (cache : Nat → Option IssueCacheEntry) (activityIdx : Int) (now : Int)
    (isInitial force : Bool) (acc : FetchLoopAcc) (j : Nat) :
    (fetchTabsStep fetch cache activityIdx now isInitial force acc j).updates =
      acc.updates ∨
    ∃ x, (fetchTabsStep fetch cache activityIdx now isInitial force acc j).updates =
      acc.updates ++ [(j, x)] := by
  unfold fetchTabsStep fetchTabsCall
  split
  · exact Or.inl rfl
  · split
    · exact Or.inl rfl
    · split
      · split
        · exact Or.inr ⟨_, rfl⟩
        · split
          · exact Or.inl rfl
          · exact Or.inr ⟨_, rfl⟩
      · split
        · exact Or.inl rfl
        · exact Or.inr ⟨_, rfl⟩

/-- With `force = false`, `isInitial = false` and a fresh cache entry at
`i`, the loop step at `i` only copies the entry: no call, no new update
binding beyond `(i, e)`. -/
theorem fetchTabsStep_fresh (fetch : Nat → Except String (List JiraIssue))
    (cache : Nat → Option IssueCacheEntry) (activityIdx : Int) (now : Int)
    (acc : FetchLoopAcc) (i : Nat) (e : IssueCacheEntry)
    (hce : cache i = some e)
    (hfr : now - e.fetchedAt < ISSUE_CACHE_TTL_MS) :
    (fetchTabsStep fetch cache activityIdx now false false acc i).calls =
      acc.calls ∧
    ((fetchTabsStep fetch cache activityIdx now false false acc i).updates =
       acc.updates ∨
     (fetchTabsStep fetch cache activityIdx now false false acc i).updates =
       acc.updates ++ [(i, e)]) := by
  cases hf : acc.failed with
  | some m => simp [fetchTabsStep, hf]
  | none =>
    by_cases ha : (i : Int) = activityIdx
    · simp [fetchTabsStep, hf, ha]
    · simp [fetchTabsStep, hf, ha, hce, hfr]

theorem fetchTabsLoop_fresh_not_called
    (fetch : Nat → Except String (List JiraIssue))
    (cache : Nat → Option IssueCacheEntry) (activityIdx : Int) (now : Int)
    (i : Nat) (e : IssueCacheEntry) (hce : cache i = some e)
    (hfr : now - e.fetchedAt < ISSUE_CACHE_TTL_MS) (idxs : List Nat) :
    ∀ acc : FetchLoopAcc, i ∉ acc.calls →
      i ∉ (fetchTabsLoop fetch cache activityIdx now false false idxs acc).calls := by
  induction idxs with
  | nil => exact fun acc h => h
  | cons j rest ih =>
    intro acc h
    apply ih
    by_cases hij : j = i
    · subst hij
      rw [(fetchTabsStep_fresh fetch cache activityIdx now acc j e hce hfr).1]
      exact h
    · rcases fetchTabsStep_calls fetch cache activityIdx now false false acc j
        with hc | hc <;> rw [hc]
      · exact h
      · intro hmem
        rcases List.mem_append.mp hmem with hmem | hmem
        · exact h hmem
        · exact hij (List.mem_singleton.mp hmem).symm

theorem fetchTabsLoop_lookup_inv
    (fetch : Nat → Except String (List JiraIssue))
    (cache : Nat → Option IssueCacheEntry) (activityIdx : Int) (now : Int)
    (i : Nat) (e : IssueCacheEntry) (hce : cache i = some e)
    (hfr : now - e.fetchedAt < ISSUE_CACHE_TTL_MS) (idxs : List Nat) :
    ∀ acc : FetchLoopAcc,
      (∀ v, acc.updates.lookup i = some v → v = e) →
      ∀ v, (fetchTabsLoop fetch cache activityIdx now false false idxs
              acc).updates.lookup i = some v → v = e := by
  induction idxs with
  | nil => exact fun acc h => h
  | cons j rest ih =>
    intro acc h
    apply ih
    by_cases hij : j = i
    · subst hij
      rcases (fetchTabsStep_fresh fetch cache activityIdx now acc j e hce
          hfr).2 with hu | hu <;> rw [hu]
      · exact h
      · intro v hv
        rw [lookup_append_single] at hv
        cases hl : List.lookup j acc.updates with
        | some w =>
          rw [hl] at hv
          simp only [Option.some.injEq] at hv
          rw [← hv]
          exact h w hl
        | none =>
          rw [hl, if_pos rfl] at hv
          simp only [Option.some.injEq] at hv
          exact hv.symm
    · rcases fetchTabsStep_updates fetch cache activityIdx now false false acc
        j with hu | ⟨x, hu⟩ <;> rw [hu]
      · exact h
      · intro v hv
        rw [lookup_append_single] at hv
        cases hl : List.lookup i acc.updates with
        | some w =>
          rw [hl] at hv
          simp only [Option.some.injEq] at hv
          rw [← hv]
          exact h w hl
        | none =>
          rw [hl, if_neg (fun hh => hij hh.symm)] at hv
          exact Option.noConfusion hv

theorem fetchTabsStep_failed_none
    (fetch : Nat → Except String (List JiraIssue))
    (cache : Nat → Option IssueCacheEntry) (activityIdx : Int) (now : Int)
    (isInitial force : Bool) (acc : FetchLoopAcc) (j : Nat)
    (hok : ∀ k, ∃ v, fetch k = .ok v) (hf : acc.failed = none) :
    (fetchTabsStep fetch cache activityIdx now isInitial force acc j).failed =
      none := by
  obtain ⟨v, hv⟩ := hok j
  unfold fetchTabsStep fetchTabsCall
  rw [hf]
  repeat' split
  all_goals simp_all

theorem fetchTabsStep_calls_mono
    (fetch : Nat → Except String (List JiraIssue))
    (cache : Nat → Option IssueCacheEntry) (activityIdx : Int) (now : Int)
    (isInitial force : Bool) (acc : FetchLoopAcc) (j i : Nat)
    (h : i ∈ acc.calls) :
    i ∈ (fetchTabsStep fetch cache activityIdx now isInitial force acc j).calls := by
  rcases fetchTabsStep_calls fetch cache activityIdx now isInitial force acc j
    with hc | hc <;> rw [hc]
  · exact h
  · exact List.mem_append_left _ h

theorem fetchTabsLoop_calls_mono
    (fetch : Nat → Except String (List JiraIssue))
    (cache : Nat → Option IssueCacheEntry) (activityIdx : Int) (now : Int)
    (isInitial force : Bool) (idxs : List Nat) :
    ∀ (acc : FetchLoopAcc) (i : Nat), i ∈ acc.calls →
      i ∈ (fetchTabsLoop fetch cache activityIdx now isInitial force idxs acc).calls := by
  induction idxs with
  | nil => exact fun acc i h => h
  | cons j rest ih =>
    intro acc i h
    exact ih _ i (fetchTabsStep_calls_mono fetch cache activityIdx now
      isInitial force acc j i h)

/-- With `force = true` and a fetch oracle that never fails, every
non-activity index in the loop's index list is remotely called. -/
theorem fetchTabsLoop_force_called
    (fetch : Nat → Except String (List JiraIssue))
    (cache : Nat → Option IssueCacheEntry) (activityIdx : Int) (now : Int)
    (isInitial : Bool) (i : Nat) (hok : ∀ k, ∃ v, fetch k = .ok v)
    (ha : (i : Int) ≠ activityIdx) (idxs : List Nat) :
    ∀ acc : FetchLoopAcc, i ∈ idxs → acc.failed = none →
      i ∈ (fetchTabsLoop fetch cache activityIdx now isInitial true idxs acc).calls := by
  induction idxs with
  | nil => intro acc h; exact absurd h (List.not_mem_nil i)
  | cons j rest ih =>
    intro acc hmem hf
    by_cases hij : j = i
    · subst hij
      show j ∈ (fetchTabsLoop fetch cache activityIdx now isInitial true rest
        (fetchTabsStep fetch cache activityIdx now isInitial true acc j)).calls
      apply fetchTabsLoop_calls_mono
      obtain ⟨v, hv⟩ := hok j
      unfold fetchTabsStep fetchTabsCall
      rw [hf, if_neg ha]
      repeat' split
      all_goals simp_all
    · rcases List.mem_cons.mp hmem with hji | hmem
      · exact absurd hji.symm hij
      · exact ih _ hmem (fetchTabsStep_failed_none fetch cache activityIdx now
          isInitial true acc j hok hf)

/-- C2: for a standard view index `i` whose cache entry is younger than the
30-second freshness window, a non-forced, non-initial `fetchAllTabs` keeps
the entry unchanged and performs no remote call for `i`; with `force = true`
(and a fetch oracle that does not throw) the index is remotely called
regardless of the entry's age. -/
theorem fetchAllTabs_freshness (s : AppState)
    (fetch : Nat → Except String (List JiraIssue)) (now : Int) (i : Nat)
    (e : IssueCacheEntry) (hi : i < s.config.views.length)
    (hce : s.issueCache i = some e)
    (hfr : now - e.fetchedAt < ISSUE_CACHE_TTL_MS) :
    ((fetchAllTabs s fetch now false false).state.issueCache i = some e ∧
     i ∉ (fetchAllTabs s fetch now false false).calls) ∧
    ((∀ k, ∃ v, fetch k = .ok v) →
     i ∈ (fetchAllTabs s fetch now false true).calls) := by
  constructor
  · have hcalls := fetchTabsLoop_fresh_not_called fetch s.issueCache
      (activityTabIndex s.config) now i e hce hfr
      (List.range (tabsLength s.config))
      { updates := [], calls := [], known := s.knownIssueIds,
        highlighted := s.newIssueIds, didFetch := false, failed := none }
      (List.not_mem_nil i)
    have hlu := fetchTabsLoop_lookup_inv fetch s.issueCache
      (activityTabIndex s.config) now i e hce hfr
      (List.range (tabsLength s.config))
      { updates := [], calls := [], known := s.knownIssueIds,
        highlighted := s.newIssueIds, didFetch := false, failed := none }
      (fun v hv => Option.noConfusion hv)
    simp only [fetchAllTabs]
    split
    · exact ⟨hce, hcalls⟩
    · constructor
      · show mergeCache s.issueCache _ i = some e
        unfold mergeCache
        cases hl : List.lookup i (fetchTabsLoop fetch s.issueCache
            (activityTabIndex s.config) now false false
            (List.range (tabsLength s.config))
            { updates := [], calls := [], known := s.knownIssueIds,
              highlighted := s.newIssueIds, didFetch := false,
              failed := none }).updates with
        | some v => rw [hlu v hl]
        | none => exact hce
      · exact hcalls
  · intro hok
    have hcall := fetchTabsLoop_force_called fetch s.issueCache
      (activityTabIndex s.config) now false i hok
      (view_ne_activityTabIndex s.config i hi)
      (List.range (tabsLength s.config))
      { updates := [], calls := [], known := s.knownIssueIds,
        highlighted := s.newIssueIds, didFetch := false, failed := none }
      (List.mem_range.mpr (lt_of_lt_of_le hi (Nat.le_add_right _ _)))
      rfl
    simp only [fetchAllTabs]
    split <;> exact hcall

/-- Witness for C2: one view, a 10-second-old entry — the non-forced refresh
keeps it and calls nothing; the forced refresh calls index 0. -/
theorem fetchAllTabs_freshness_witness :
    ((fetchAllTabs
        ⟨⟨"P", "d", [⟨"V", "j"⟩], none⟩,
          (fun n => if n = 0 then some ⟨[], 0⟩ else none), [], [], false,
          false, true, none, [], []⟩
        (fun _ => .ok []) 10000 false false).state.issueCache 0 =
        some ⟨[], 0⟩ ∧
     0 ∉ (fetchAllTabs
        ⟨⟨"P", "d", [⟨"V", "j"⟩], none⟩,
          (fun n => if n = 0 then some ⟨[], 0⟩ else none), [], [], false,
          false, true, none, [], []⟩
        (fun _ => .ok []) 10000 false false).calls) ∧
    0 ∈ (fetchAllTabs
        ⟨⟨"P", "d", [⟨"V", "j"⟩], none⟩,
          (fun n => if n = 0 then some ⟨[], 0⟩ else none), [], [], false,
          false, true, none, [], []⟩
        (fun _ => .ok []) 10000 false true).calls := by
  have h := fetchAllTabs_freshness
    ⟨⟨"P", "d", [⟨"V", "j"⟩], none⟩,
      (fun n => if n = 0 then some ⟨[], 0⟩ else none), [], [], false,
      false, true, none, [], []⟩
    (fun _ => .ok []) 10000 0 ⟨[], 0⟩ (by decide) (by decide) (by decide)
  exact ⟨h.1, h.2 (fun k => ⟨[], rfl⟩)⟩

/-- C4 counterexample: a fetch failure during a non-initial background
refresh does leave the cache untouched, but it is not logged — it sets the
`error` state, and the render then shows the blocking error screen instead
of the main view. -/
theorem backgroundFailure_blocks_ui :
    (fetchAllTabs
        ⟨⟨"PROJ", "d", [⟨"V", "x"⟩], none⟩,
          (fun n => if n = 0 then some ⟨[⟨"1", "K-1"⟩], 0⟩ else none), [],
          ["1"], false, false, true, none, [], []⟩
        (fun _ => .error "HTTP 500") 100000 false false).state.issueCache 0 =
      some ⟨[⟨"1", "K-1"⟩], 0⟩ ∧
    (fetchAllTabs
        ⟨⟨"PROJ", "d", [⟨"V", "x"⟩], none⟩,
          (fun n => if n = 0 then some ⟨[⟨"1", "K-1"⟩], 0⟩ else none), [],
          ["1"], false, false, true, none, [], []⟩
        (fun _ => .error "HTTP 500") 100000 false false).state.log = [] ∧
    (fetchAllTabs
        ⟨⟨"PROJ", "d", [⟨"V", "x"⟩], none⟩,
          (fun n => if n = 0 then some ⟨[⟨"1", "K-1"⟩], 0⟩ else none), [],
          ["1"], false, false, true, none, [], []⟩
        (fun _ => .error "HTTP 500") 100000 false false).state.error =
      some "HTTP 500" ∧
    renderKind (fetchAllTabs
        ⟨⟨"PROJ", "d", [⟨"V", "x"⟩], none⟩,
          (fun n => if n = 0 then some ⟨[⟨"1", "K-1"⟩], 0⟩ else none), [],
          ["1"], false, false, true, none, [], []⟩
        (fun _ => .error "HTTP 500") 100000 false false).state =
      .errorScreen := by
  decide

/-- C4 amended: on a failing global background refresh every cache entry is
left untouched, but the failure sets the `error` state (which, outside the
loading and validation screens, renders the blocking error screen) and is
not logged; only a failing activity refresh is logged and leaves all other
state unchanged. -/
theorem fetchFailure_behaviour :
    (∀ (s : AppState) (fetch : Nat → Except String (List JiraIssue))
       (now : Int) (isInitial force : Bool) (msg : String),
      (fetchAllTabs s fetch now isInitial force).failed = some msg →
      (∀ j, (fetchAllTabs s fetch now isInitial force).state.issueCache j =
        s.issueCache j) ∧
      (fetchAllTabs s fetch now isInitial force).state.error = some msg ∧
      (fetchAllTabs s fetch now isInitial force).state.log = s.log) ∧
    (∀ (s : AppState) (msg : String) (idx : Nat) (now : Int)
       (isInitial : Bool),
      fetchActivityIssues s (.error msg) idx now isInitial =
        { s with log := s.log ++ ["Activity refresh failed: " ++ msg] }) ∧
    (∀ (s : AppState) (msg : String), s.loading = false →
      s.validationErrors = [] → s.error = some msg →
      renderKind s = .errorScreen) := by
  refine ⟨?_, fun s msg idx now isInitial => rfl, ?_⟩
  · intro s fetch now isInitial force msg h
    rcases hfe : (fetchTabsLoop fetch s.issueCache (activityTabIndex s.config)
        now isInitial force (List.range (tabsLength s.config))
        { updates := [], calls := [], known := s.knownIssueIds,
          highlighted := s.newIssueIds, didFetch := false,
          failed := none }).failed with _ | m
    · simp only [fetchAllTabs, hfe] at h
      exact Option.noConfusion h
    · simp only [fetchAllTabs, hfe] at h ⊢
      simp_all
  · intro s msg h1 h2 h3
    simp [renderKind, h1, h2, h3]

/-- Witness for C4's amended claim at a concrete failing refresh: the cache
function is unchanged at index 0, the error state carries the message, the
log is unchanged, the activity failure only appends to the log, and an error
state renders the error screen. -/
theorem fetchFailure_behaviour_witness :
    (fetchAllTabs
        ⟨⟨"P", "d", [⟨"V", "x"⟩], none⟩, (fun _ => none), [], [], false,
          false, true, none, [], ["old log line"]⟩
        (fun _ => .error "boom") 0 false false).state.issueCache 0 = none ∧
    (fetchAllTabs
        ⟨⟨"P", "d", [⟨"V", "x"⟩], none⟩, (fun _ => none), [], [], false,
          false, true, none, [], ["old log line"]⟩
        (fun _ => .error "boom") 0 false false).state.error = some "boom" ∧
    (fetchAllTabs
        ⟨⟨"P", "d", [⟨"V", "x"⟩], none⟩, (fun _ => none), [], [], false,
          false, true, none, [], ["old log line"]⟩
        (fun _ => .error "boom") 0 false false).state.log = ["old log line"] ∧
    fetchActivityIssues
        ⟨⟨"P", "d", [⟨"V", "x"⟩], none⟩, (fun _ => none), [], [], false,
          false, true, none, [], ["old log line"]⟩
        (.error "boom") 1 0 false =
      ⟨⟨"P", "d", [⟨"V", "x"⟩], none⟩, (fun _ => none), [], [], false,
        false, true, none, [],
        ["old log line", "Activity refresh failed: boom"]⟩ ∧
    renderKind
        ⟨⟨"P", "d", [⟨"V", "x"⟩], none⟩, (fun _ => none), [], [], false,
          false, true, some "boom", [], []⟩ = .errorScreen := by
  have h := fetchFailure_behaviour
  have h1 := h.1
    ⟨⟨"P", "d", [⟨"V", "x"⟩], none⟩, (fun _ => none), [], [], false,
      false, true, none, [], ["old log line"]⟩
    (fun _ => .error "boom") 0 false false "boom" (by decide)
  exact ⟨h1.1 0, h1.2.1, h1.2.2,
    h.2.1 ⟨⟨"P", "d", [⟨"V", "x"⟩], none⟩, (fun _ => none), [], [], false,
      false, true, none, [], ["old log line"]⟩ "boom" 1 0 false,
    h.2.2 ⟨⟨"P", "d", [⟨"V", "x"⟩], none⟩, (fun _ => none), [], [], false,
      false, true, some "boom", [], []⟩ "boom" rfl rfl rfl⟩

/-! ## C8: double scoping

The key invariant is the `'('` count: one application of the scoper always
adds exactly `1 + count '(' p` opening parentheses, so a second application
can never reproduce its input. -/

theorem count_takeWhile_zero (p : Char → Bool) (c : Char) (hc : p c = false)
    (l : List Char) : (l.takeWhile p).count c = 0 := by
  induction l with
  | nil => rfl
  | cons a t ih =>
    by_cases ha : p a = true
    · rw [List.takeWhile_cons_of_pos ha, List.count_cons]
      have hne : (a == c) = false := by
        apply beq_eq_false_iff_ne.mpr
        intro e
        rw [e] at ha
        rw [ha] at hc
        exact Bool.noConfusion hc
      simp [ih, hne]
    · rw [List.takeWhile_cons_of_neg ha]
      rfl

theorem count_dropWhile (p : Char → Bool) (c : Char) (hc : p c = false)
    (l : List Char) : (l.dropWhile p).count c = l.count c := by
  conv_rhs => rw [← List.takeWhile_append_dropWhile (p := p) (l := l)]
  rw [List.count_append, count_takeWhile_zero p c hc, Nat.zero_add]

theorem count_jsTrim (c : Char) (hc : isJsWhitespace c = false)
    (l : List Char) : (jsTrim l).count c = l.count c := by
  unfold jsTrim
  rw [List.count_reverse, count_dropWhile _ _ hc, List.count_reverse,
    count_dropWhile _ _ hc]

theorem jsTrim_ne_nil (l : List Char) (c : Char)
    (hc : isJsWhitespace c = false) (hm : c ∈ l) : jsTrim l ≠ [] := by
  intro h
  have hcount := count_jsTrim c hc l
  rw [h] at hcount
  exact (List.count_eq_zero.mp hcount.symm) hm

theorem splitOrderByL_count (l : List Char) (c : Char)
    (hc : isJsWhitespace c = false) :
    (splitOrderByL l).1.count c + (splitOrderByL l).2.count c = l.count c := by
  unfold splitOrderByL
  cases h : findOrderByAux l false 0 with
  | none => simp [count_jsTrim c hc]
  | some i =>
    simp only
    rw [count_jsTrim c hc, count_jsTrim c hc, ← List.count_append,
      List.take_append_drop]

theorem findOrderByAux_le (l : List Char) :
    ∀ (prev : Bool) (n j : Nat), findOrderByAux l prev n = some j → n ≤ j := by
  induction l with
  | nil =>
    intro prev n j h
    exact Option.noConfusion h
  | cons a t ih =>
    intro prev n j h
    unfold findOrderByAux at h
    by_cases hcond : (!prev && orderByMatchAt (a :: t)) = true
    · rw [if_pos hcond] at h
      cases h
      exact Nat.le_refl n
    · rw [if_neg hcond] at h
      exact Nat.le_of_succ_le (ih (isWordChar a) (n + 1) j h)

theorem orderByMatchAt_false_of_head (a : Char) (t : List Char)
    (ha : ¬a.toLower = 'o') : orderByMatchAt (a :: t) = false := by
  simp [orderByMatchAt, matchCI, ha]

theorem findOrderByAux_head_pos (a : Char) (t : List Char) (prev : Bool)
    (j : Nat) (ha : orderByMatchAt (a :: t) = false)
    (h : findOrderByAux (a :: t) prev 0 = some j) : 1 ≤ j := by
  unfold findOrderByAux at h
  rw [ha] at h
  simp only [Bool.and_false, Bool.false_eq_true, if_false, ite_false] at h
  exact findOrderByAux_le t (isWordChar a) 1 j h

/-- The scoped query always starts with `p` (of `project = `) or `(`. -/
theorem inject_data_head (q p : String) :
    ∃ (h : Char) (t : List Char),
      (injectProjectConstraintAtEnd q p).data = h :: t ∧
      (h = 'p' ∨ h = '(') := by
  unfold injectProjectConstraintAtEnd
  by_cases hc : (splitOrderBy q).1 = "" <;>
    by_cases ho : (splitOrderBy q).2 = "" <;>
      simp only [hc, ho, if_true, if_false, ite_true, ite_false]
  · exact ⟨'p', ("roject = " ++ p).data, rfl, Or.inl rfl⟩
  · exact ⟨'p', ("roject = " ++ p ++ " " ++ (splitOrderBy q).2).data, rfl,
      Or.inl rfl⟩
  · exact ⟨'(', ((splitOrderBy q).1 ++ ") AND project = " ++ p).data, rfl,
      Or.inr rfl⟩
  · exact ⟨'(', ((splitOrderBy q).1 ++ ") AND project = " ++ p ++ " " ++
      (splitOrderBy q).2).data, rfl, Or.inr rfl⟩

/-- Scoping a query whose head is a non-whitespace character other than
`o`/`O` (such as any already-scoped query) always wraps: the conditions
clause of the split is non-empty, the result adds `( ) AND project = `
around it, and the `'('` count grows by exactly `1 + count '(' p`. -/
theorem inject_again (s p : String) (h : Char) (t : List Char)
    (hs : s.data = h :: t) (hws : isJsWhitespace h = false)
    (ho : ¬h.toLower = 'o') :
    (splitOrderBy s).1 ≠ "" ∧
    injectProjectConstraintAtEnd s p =
      ("(" ++ (splitOrderBy s).1 ++ ") AND project = " ++ p) ++
      (if (splitOrderBy s).2 = "" then "" else " " ++ (splitOrderBy s).2) ∧
    (injectProjectConstraintAtEnd s p).data.count '(' =
      1 + s.data.count '(' + p.data.count '(' := by
  have hc2 : (splitOrderByL s.data).1 ≠ [] := by
    unfold splitOrderByL
    cases hf : findOrderByAux s.data false 0 with
    | none =>
      simp only
      exact jsTrim_ne_nil s.data h hws (by rw [hs]; exact List.mem_cons_self _ _)
    | some i =>
      simp only
      have hmatch : orderByMatchAt (h :: t) = false :=
        orderByMatchAt_false_of_head h t ho
      have hi : 1 ≤ i := by
        rw [hs] at hf
        exact findOrderByAux_head_pos h t false i hmatch hf
      apply jsTrim_ne_nil _ h hws
      rw [hs]
      cases i with
      | zero => omega
      | succ n =>
        rw [List.take_succ_cons]
        exact List.mem_cons_self _ _
  have hc2' : (splitOrderBy s).1 ≠ "" := by
    intro hh
    exact hc2 ((string_eq_empty_iff _).mp hh)
  have hsplit := splitOrderByL_count s.data '(' (by decide)
  have hc2data : (splitOrderBy s).1.data = (splitOrderByL s.data).1 := rfl
  have ho2data : (splitOrderBy s).2.data = (splitOrderByL s.data).2 := rfl
  refine ⟨hc2', by rw [inject_eq_scoped, if_neg hc2'], ?_⟩
  rw [inject_eq_scoped, if_neg hc2']
  by_cases ho2 : (splitOrderBy s).2 = ""
  · rw [if_pos ho2, string_append_empty]
    have ho2nil : (splitOrderByL s.data).2 = [] := by
      rw [← ho2data]
      exact (string_eq_empty_iff _).mp ho2
    rw [ho2nil, List.count_nil] at hsplit
    simp only [string_data_append, List.count_append, hc2data]
    have l1 : List.count '(' ['('] = 1 := by decide
    have l2 : List.count '(' [')', ' ', 'A', 'N', 'D', ' ', 'p', 'r', 'o',
      'j', 'e', 'c', 't', ' ', '=', ' '] = 0 := by decide
    omega
  · rw [if_neg ho2]
    simp only [string_data_append, List.count_append, hc2data, ho2data]
    have l1 : List.count '(' ['('] = 1 := by decide
    have l2 : List.count '(' [')', ' ', 'A', 'N', 'D', ' ', 'p', 'r', 'o',
      'j', 'e', 'c', 't', ' ', '=', ' '] = 0 := by decide
    have l3 : List.count '(' [' '] = 0 := by decide
    omega

/-- C8: `ScopeToProject` is not idempotent — a second application wraps the
already-scoped conditions in parentheses and appends a second
`AND project = {p}` constraint, so it never returns its input unchanged. -/
theorem scopeToProject_not_idempotent (q p : String) :
    (splitOrderBy (injectProjectConstraintAtEnd q p)).1 ≠ "" ∧
    injectProjectConstraintAtEnd (injectProjectConstraintAtEnd q p) p =
      ("(" ++ (splitOrderBy (injectProjectConstraintAtEnd q p)).1 ++
        ") AND project = " ++ p) ++
      (if (splitOrderBy (injectProjectConstraintAtEnd q p)).2 = "" then ""
       else " " ++ (splitOrderBy (injectProjectConstraintAtEnd q p)).2) ∧
    injectProjectConstraintAtEnd (injectProjectConstraintAtEnd q p) p ≠
      injectProjectConstraintAtEnd q p := by
  obtain ⟨h, t, hs, hh⟩ := inject_data_head q p
  have hws : isJsWhitespace h = false := by
    rcases hh with rfl | rfl <;> decide
  have ho : ¬h.toLower = 'o' := by
    rcases hh with rfl | rfl <;> decide
  obtain ⟨h1, h2, h3⟩ := inject_again (injectProjectConstraintAtEnd q p) p
    h t hs hws ho
  refine ⟨h1, h2, ?_⟩
  intro he
  rw [he] at h3
  omega

end JiraTui
